import Mathlib

/-!
A shallow embedding of the dispatch core of the image-manager service
(`src/index.js`) together with proofs about its behaviour.

Modelling conventions:
* Listing identifiers (`adId`) and worker endpoints (base URLs) are opaque
  values, modelled as `Nat`.
* The mutable globals of the service (`workerIndex`, `processingQueue`,
  the image directory, plus the observable log of worker calls, cache
  writes and exhaustion log lines) are gathered in `DState` and threaded
  explicitly.  `WORKER_URLS` is read but never written by the dispatch
  path, so it is passed as a fixed parameter.
* A worker's response to a render request is `WResp`: either a network
  error / timeout (the `catch` path of the source) or an HTTP status code.
  The environment is a pure oracle `behav : Nat → WResp` giving, per
  endpoint, the response of that endpoint.
-/

namespace ImageManager

/-- A worker's response to a render call: network error (the `catch`
path in the source) or an HTTP status code (`200` success, `367`
overloaded, anything else failure). -/
inductive WResp where
  | netError : WResp
  | status : Nat → WResp
deriving DecidableEq

/-- The mutable state of the manager that the dispatch path touches,
plus observable traces.  `workerIndex` is the rotation cursor,
`processingQueue` the in-flight set, `images` the set of listing ids with
a cache entry on disk, `writes` the trace of cache writes
(`fs.writeFileSync` calls keyed by listing id), `calls` the trace of
worker render calls (`axios.post`, keyed by endpoint, in order), and
`exhaustedLog` the trace of "all workers overloaded or failed" log
lines (keyed by listing id). -/
structure DState where
  workerIndex : Nat
  processingQueue : Finset Nat
  images : Finset Nat
  writes : List Nat
  calls : List Nat
  exhaustedLog : List Nat
deriving DecidableEq

/-- `getNextWorker` from `src/index.js` lines 53-57: return
`WORKER_URLS[workerIndex % WORKER_URLS.length]` and advance the cursor.
(For an empty list the source would yield `undefined`; the model totalises
with the default `0`, but `processTradeAd` never reaches the selection
with an empty list, see `C10_empty_registry`.) -/
def getNextWorker (workers : List Nat) (s : DState) : Nat × DState :=
  (workers.getD (s.workerIndex % workers.length) 0,
   { s with workerIndex := s.workerIndex + 1 })

/-- The `finally` block of `processTradeAd` (lines 167-172): delete the id
from the in-flight set only when `attempts + 1 >= MAX_ATTEMPTS`. -/
def finallyStep (adId attempts maxAttempts : Nat) (s : DState) : DState :=
  if attempts + 1 ≥ maxAttempts then
    { s with processingQueue := s.processingQueue.erase adId }
  else s

/-- `processTradeAd` from `src/index.js` lines 110-173, for one dispatch:

* `attempts ≥ MAX_ATTEMPTS` (with `MAX_ATTEMPTS = WORKER_URLS.length`):
  log exhaustion, delete the id from the in-flight set, return
  (lines 113-117; this early return is before the `try`, so no `finally`
  runs at this recursion level).
* Otherwise select the next worker (line 119); if it is already in
  `triedWorkers`, recurse with `attempts + 1` (lines 122-124; also before
  the `try`, so no `finally` at this level).
* Otherwise record the render call and branch on the response
  (lines 126-166): status 367 (overloaded) and any non-200 status and a
  network error all recurse with `attempts + 1` and the enlarged tried
  set; status 200 writes the cache entry.  These paths are inside the
  `try`, so the `finally` (`finallyStep`) runs at this level, applied to
  the state after the inner recursion has completed — sound because the
  recursion never re-adds the id to the queue, so the deletion commutes
  with it. -/
def processTradeAd (behav : Nat → WResp) (adId : Nat) (workers : List Nat)
    (attempts : Nat) (triedWorkers : Finset Nat) (s : DState) : DState :=
  if _h : attempts ≥ workers.length then
    { s with exhaustedLog := s.exhaustedLog ++ [adId],
             processingQueue := s.processingQueue.erase adId }
  else
    let sel := getNextWorker workers s
    let workerUrl := sel.1
    let s1 := sel.2
    if workerUrl ∈ triedWorkers then
      processTradeAd behav adId workers (attempts + 1) triedWorkers s1
    else
      let s2 := { s1 with calls := s1.calls ++ [workerUrl] }
      match behav workerUrl with
      | WResp.netError =>
          finallyStep adId attempts workers.length
            (processTradeAd behav adId workers (attempts + 1)
              (insert workerUrl triedWorkers) s2)
      | WResp.status code =>
          if code = 367 then
            finallyStep adId attempts workers.length
              (processTradeAd behav adId workers (attempts + 1)
                (insert workerUrl triedWorkers) s2)
          else if code ≠ 200 then
            finallyStep adId attempts workers.length
              (processTradeAd behav adId workers (attempts + 1)
                (insert workerUrl triedWorkers) s2)
          else
            finallyStep adId attempts workers.length
              { s2 with writes := s2.writes ++ [adId],
                        images := insert adId s2.images }
termination_by workers.length - attempts
decreasing_by all_goals omega

/-- `new Set(...)` over a list as built by the poller (line 88): JavaScript
`Set` iteration order is insertion order, so the set is the list with later
duplicates dropped. -/
def jsSetList (l : List Nat) : List Nat :=
  l.foldl (fun acc x => if x ∈ acc then acc else acc ++ [x]) []

/-- Result of one poll cycle: which listing ids were handed to
`processTradeAd` (fire-and-forget, so only the hand-off is recorded), the
in-flight set after the synchronous `processingQueue.add` calls, and the
wholesale-replaced seen set. -/
structure PollResult where
  dispatched : List Nat
  processingQueue : Finset Nat
  lastPolledTradeAds : List Nat
deriving DecidableEq

/-- The `for (const adId of newAds)` loop of `pollTradeAds`
(lines 94-99): for each new id not already in the in-flight set, add it to
the set and dispatch it. -/
def dispatchNew : List Nat → Finset Nat → List Nat × Finset Nat
  | [], q => ([], q)
  | id :: rest, q =>
    if id ∈ q then dispatchNew rest q
    else ((dispatchNew rest (insert id q)).1.cons id,
          (dispatchNew rest (insert id q)).2)

/-- `pollTradeAds` from `src/index.js` lines 87-102, given that the feed
fetch succeeded and yielded the listing ids `feedIds` (in feed order,
duplicates possible): build `currentAds` as a set, diff against
`lastPolledTradeAds`, dispatch each new id not already in-flight
(fire-and-forget: the dispatches' own state effects happen asynchronously
and are not part of the poll cycle), then replace the seen set wholesale
with `currentAds`. -/
def pollOnce (feedIds : List Nat) (lastPolled : List Nat)
    (queue : Finset Nat) : PollResult :=
  let currentAds := jsSetList feedIds
  let newAds := currentAds.filter (fun id => decide (id ∉ lastPolled))
  { dispatched := (dispatchNew newAds queue).1,
    processingQueue := (dispatchNew newAds queue).2,
    lastPolledTradeAds := currentAds }

/-- A file in the image directory: an opaque name and its modification
time in milliseconds. -/
structure FileEntry where
  name : Nat
  mtime : Int
deriving DecidableEq

/-- `CACHE_DURATION = 10 * 60 * 1000` (line 44). -/
def CACHE_DURATION : Int := 10 * 60 * 1000

/-- `cleanupOldImages` from `src/index.js` lines 59-76: walk the image
directory and unlink every file with `now - mtime > CACHE_DURATION`;
returns the directory contents after the sweep. -/
def cleanupOldImages (now : Int) : List FileEntry → List FileEntry
  | [] => []
  | f :: rest =>
    if now - f.mtime > CACHE_DURATION then cleanupOldImages now rest
    else f :: cleanupOldImages now rest

/-- The health aggregation loop of `app.get('/health')` (lines 176-197):
per registered endpoint, query its health; on an answer count it healthy
and add its reported `ramUsage`; on failure/timeout (`none`) count
nothing.  Returns `(healthyWorkers, totalWorkersRam)`.  The per-endpoint
`catch` makes the aggregation total: it never fails. -/
def checkAll : List Nat → (Nat → Option Nat) → Nat × Nat
  | [], _ => (0, 0)
  | w :: rest, health =>
    match health w with
    | none => checkAll rest health
    | some ram => ((checkAll rest health).1 + 1, (checkAll rest health).2 + ram)

/-- `n` successive selections through `getNextWorker`, in order. -/
def selections (workers : List Nat) (s : DState) : Nat → List Nat
  | 0 => []
  | Nat.succ n =>
    (getNextWorker workers s).1 :: selections workers (getNextWorker workers s).2 n

/-- `finallyStep` never touches the call trace. -/
lemma finallyStep_calls (adId a m : Nat) (s : DState) :
    (finallyStep adId a m s).calls = s.calls := by
  rw [finallyStep]; split <;> rfl

/-- `finallyStep` never touches the write trace. -/
lemma finallyStep_writes (adId a m : Nat) (s : DState) :
    (finallyStep adId a m s).writes = s.writes := by
  rw [finallyStep]; split <;> rfl

/-- `finallyStep` never touches the exhaustion log. -/
lemma finallyStep_exhaustedLog (adId a m : Nat) (s : DState) :
    (finallyStep adId a m s).exhaustedLog = s.exhaustedLog := by
  rw [finallyStep]; split <;> rfl

/-- `finallyStep` never touches the image cache. -/
lemma finallyStep_images (adId a m : Nat) (s : DState) :
    (finallyStep adId a m s).images = s.images := by
  rw [finallyStep]; split <;> rfl

/-- `finallyStep` only ever removes the id from the in-flight set. -/
lemma finallyStep_not_mem_queue (adId a m : Nat) (s : DState)
    (h : adId ∉ s.processingQueue) :
    adId ∉ (finallyStep adId a m s).processingQueue := by
  rw [finallyStep]; split
  · simp [h]
  · exact h

/-- Unfolding `processTradeAd` on the exhaustion branch
(`attempts ≥ MAX_ATTEMPTS`). -/
lemma processTradeAd_exhaust (behav : Nat → WResp) (adId : Nat)
    (workers : List Nat) (attempts : Nat) (tried : Finset Nat) (s : DState)
    (h : attempts ≥ workers.length) :
    processTradeAd behav adId workers attempts tried s =
      { s with exhaustedLog := s.exhaustedLog ++ [adId],
               processingQueue := s.processingQueue.erase adId } := by
  rw [processTradeAd, dif_pos h]

/-- Unfolding `processTradeAd` on the duplicate-endpoint branch: the
selected endpoint is already in the tried set, so the source recurses
with `attempts + 1` (line 123) — outside the `try`, so no `finally`. -/
lemma processTradeAd_dup (behav : Nat → WResp) (adId : Nat)
    (workers : List Nat) (attempts : Nat) (tried : Finset Nat) (s : DState)
    (hlt : attempts < workers.length)
    (hin : workers.getD (s.workerIndex % workers.length) 0 ∈ tried) :
    processTradeAd behav adId workers attempts tried s =
      processTradeAd behav adId workers (attempts + 1) tried
        { s with workerIndex := s.workerIndex + 1 } := by
  rw [processTradeAd, dif_neg (by omega)]
  simp only [getNextWorker]
  rw [if_pos hin]

/-- Unfolding `processTradeAd` on an untried endpoint answering with a
network error (the `catch` path): one render call, then recursion with
`attempts + 1`, wrapped in the `finally`. -/
lemma processTradeAd_netError (behav : Nat → WResp) (adId : Nat)
    (workers : List Nat) (attempts : Nat) (tried : Finset Nat) (s : DState)
    (hlt : attempts < workers.length)
    (hnt : workers.getD (s.workerIndex % workers.length) 0 ∉ tried)
    (hbv : behav (workers.getD (s.workerIndex % workers.length) 0) =
      WResp.netError) :
    processTradeAd behav adId workers attempts tried s =
      finallyStep adId attempts workers.length
        (processTradeAd behav adId workers (attempts + 1)
          (insert (workers.getD (s.workerIndex % workers.length) 0) tried)
          { s with workerIndex := s.workerIndex + 1,
                   calls := s.calls ++
                     [workers.getD (s.workerIndex % workers.length) 0] }) := by
  rw [processTradeAd, dif_neg (by omega)]
  simp only [getNextWorker]
  rw [if_neg hnt, hbv]

/-- Unfolding `processTradeAd` on an untried endpoint answering with a
non-success status (overloaded 367 or any other non-200): one render
call, then recursion with `attempts + 1`, wrapped in the `finally`. -/
lemma processTradeAd_failStatus (behav : Nat → WResp) (adId : Nat)
    (workers : List Nat) (attempts : Nat) (tried : Finset Nat) (s : DState)
    (code : Nat) (hlt : attempts < workers.length)
    (hnt : workers.getD (s.workerIndex % workers.length) 0 ∉ tried)
    (hbv : behav (workers.getD (s.workerIndex % workers.length) 0) =
      WResp.status code)
    (hc : code ≠ 200) :
    processTradeAd behav adId workers attempts tried s =
      finallyStep adId attempts workers.length
        (processTradeAd behav adId workers (attempts + 1)
          (insert (workers.getD (s.workerIndex % workers.length) 0) tried)
          { s with workerIndex := s.workerIndex + 1,
                   calls := s.calls ++
                     [workers.getD (s.workerIndex % workers.length) 0] }) := by
  rw [processTradeAd, dif_neg (by omega)]
  simp only [getNextWorker]
  rw [if_neg hnt, hbv]
  dsimp only
  by_cases h367 : code = 367
  · rw [if_pos h367]
  · rw [if_neg h367, if_pos hc]

/-- Unfolding `processTradeAd` on an untried endpoint answering 200: one
render call, the cache write, then the `finally`. -/
lemma processTradeAd_success (behav : Nat → WResp) (adId : Nat)
    (workers : List Nat) (attempts : Nat) (tried : Finset Nat) (s : DState)
    (hlt : attempts < workers.length)
    (hnt : workers.getD (s.workerIndex % workers.length) 0 ∉ tried)
    (hbv : behav (workers.getD (s.workerIndex % workers.length) 0) =
      WResp.status 200) :
    processTradeAd behav adId workers attempts tried s =
      finallyStep adId attempts workers.length
        { s with workerIndex := s.workerIndex + 1,
                 calls := s.calls ++
                   [workers.getD (s.workerIndex % workers.length) 0],
                 writes := s.writes ++ [adId],
                 images := insert adId s.images } := by
  rw [processTradeAd, dif_neg (by omega)]
  simp only [getNextWorker]
  rw [if_neg hnt, hbv]
  dsimp only
  rw [if_neg (by decide : ¬ (200 = 367))]
  simp

/-- In a duplicate-free list, the element at position `j` does not occur
among the first `j` elements. -/
lemma getD_not_mem_take (l : List Nat) (j : Nat) (hj : j < l.length)
    (hnd : l.Nodup) : l.getD j 0 ∉ l.take j := by
  intro hmem
  have hnd2 : (l.take j ++ l.drop j).Nodup := by
    rw [List.take_append_drop j l]; exact hnd
  rw [List.nodup_append] at hnd2
  refine hnd2.2.2 hmem ?_
  rw [List.getD_eq_getElem l 0 hj, List.drop_eq_getElem_cons hj]
  exact List.mem_cons_self _ _

/-- Adding the endpoint at position `j` to the endpoints of the first `j`
positions gives the endpoints of the first `j + 1` positions. -/
lemma take_succ_toFinset (l : List Nat) (j : Nat) (hj : j < l.length) :
    (l.take (j + 1)).toFinset = insert (l.getD j 0) ((l.take j).toFinset) := by
  rw [List.getD_eq_getElem l 0 hj, ← List.take_concat_get' l j hj]
  ext x
  simp only [List.mem_toFinset, List.mem_append, List.mem_singleton,
    Finset.mem_insert]
  tauto

/-- Across `n` consecutive cursor positions every residue modulo `n` is
hit: the rotation makes the selected positions cover the whole list. -/
lemma mod_shift_surj (x m n : Nat) (hn : 0 < n) (hm : m < n) :
    ∃ k, k < n ∧ (x + k) % n = m := by
  refine ⟨(m + n - x % n) % n, Nat.mod_lt _ hn, ?_⟩
  have hr : x % n < n := Nat.mod_lt _ hn
  conv_lhs => rw [Nat.add_mod]
  rcases le_or_lt (x % n) m with h | h
  · have h1 : m + n - x % n = (m - x % n) + n := by omega
    rw [h1, Nat.add_mod_right]
    have h2 : (m - x % n) % n = m - x % n := Nat.mod_eq_of_lt (by omega)
    rw [h2, h2]
    have h3 : x % n + (m - x % n) = m := by omega
    rw [h3, Nat.mod_eq_of_lt hm]
  · have h1 : (m + n - x % n) % n = m + n - x % n := Nat.mod_eq_of_lt (by omega)
    rw [h1, h1]
    have h3 : x % n + (m + n - x % n) = m + n := by omega
    rw [h3, Nat.add_mod_right, Nat.mod_eq_of_lt hm]

/-- Run lemma for a never-succeeding oracle, duplicates allowed.  From
any point of the retry recursion: the call trace only grows, every
endpoint in the tried set ends up in the call trace (provided it already
is), and the endpoint of every rotation position selected in the
remaining `workers.length - j` attempts ends up in the call trace. -/
lemma processTradeAd_covers (behav : Nat → WResp) (adId : Nat)
    (workers : List Nat)
    (hns : ∀ w, behav w ≠ WResp.status 200) :
    ∀ (d j : Nat) (tried : Finset Nat) (s : DState),
      workers.length - j ≤ d →
      (∀ w ∈ tried, w ∈ s.calls) →
      (∀ w ∈ s.calls,
        w ∈ (processTradeAd behav adId workers j tried s).calls) ∧
      (∀ w ∈ tried,
        w ∈ (processTradeAd behav adId workers j tried s).calls) ∧
      (∀ k, k < workers.length - j →
        workers.getD ((s.workerIndex + k) % workers.length) 0 ∈
          (processTradeAd behav adId workers j tried s).calls) := by
  intro d
  induction d with
  | zero =>
    intro j tried s hd htr
    have hj : j ≥ workers.length := by omega
    rw [processTradeAd_exhaust behav adId workers j tried s hj]
    exact ⟨fun w hw => hw, htr, fun k hk => by omega⟩
  | succ d ih =>
    intro j tried s hd htr
    by_cases hj : j ≥ workers.length
    · rw [processTradeAd_exhaust behav adId workers j tried s hj]
      exact ⟨fun w hw => hw, htr, fun k hk => by omega⟩
    · have hjlt : j < workers.length := by omega
      by_cases hv : workers.getD (s.workerIndex % workers.length) 0 ∈ tried
      · rw [processTradeAd_dup behav adId workers j tried s hjlt hv]
        obtain ⟨m1, t1, p1⟩ :=
          ih (j + 1) tried { s with workerIndex := s.workerIndex + 1 }
            (by omega) htr
        refine ⟨m1, t1, fun k hk => ?_⟩
        rcases k with _ | k
        · exact t1 _ (by simpa using hv)
        · have h2 : s.workerIndex + (k + 1) = s.workerIndex + 1 + k := by omega
          rw [h2]
          exact p1 k (by omega)
      · have hstep :
            processTradeAd behav adId workers j tried s =
              finallyStep adId j workers.length
                (processTradeAd behav adId workers (j + 1)
                  (insert (workers.getD (s.workerIndex % workers.length) 0) tried)
                  { s with workerIndex := s.workerIndex + 1,
                           calls := s.calls ++
                             [workers.getD (s.workerIndex % workers.length) 0] }) := by
          rcases hbv : behav (workers.getD (s.workerIndex % workers.length) 0)
            with _ | code
          · exact processTradeAd_netError behav adId workers j tried s hjlt hv hbv
          · refine processTradeAd_failStatus behav adId workers j tried s code
              hjlt hv hbv ?_
            intro h200
            exact hns _ (by rw [hbv, h200])
        rw [hstep]
        obtain ⟨m1, t1, p1⟩ :=
          ih (j + 1)
            (insert (workers.getD (s.workerIndex % workers.length) 0) tried)
            { s with workerIndex := s.workerIndex + 1,
                     calls := s.calls ++
                       [workers.getD (s.workerIndex % workers.length) 0] }
            (by omega)
            (by
              intro w hw
              rcases Finset.mem_insert.mp hw with rfl | hw
              · simp
              · exact List.mem_append_left _ (htr w hw))
        rw [finallyStep_calls]
        refine ⟨?_, ?_, ?_⟩
        · intro w hw
          exact m1 w (List.mem_append_left _ hw)
        · intro w hw
          exact t1 w (Finset.mem_insert_of_mem hw)
        · intro k hk
          rcases k with _ | k
          · exact t1 _ (Finset.mem_insert_self _ _)
          · have h2 : s.workerIndex + (k + 1) = s.workerIndex + 1 + k := by omega
            rw [h2]
            exact p1 k (by omega)

/-- Run lemma for C4: from attempt `j ≤ K` with the cursor at position
`j` and the tried set holding the first `j` endpoints, a dispatch over
duplicate-free workers whose positions `0..K-1` fail and whose position
`K` succeeds appends exactly the endpoints at positions `j..K` to the
call trace and appends exactly one cache write. -/
lemma processTradeAd_prefix_run (behav : Nat → WResp) (adId K : Nat)
    (workers : List Nat) (hnd : workers.Nodup) (hK : K < workers.length)
    (hfail : ∀ i, i < K → behav (workers.getD i 0) ≠ WResp.status 200)
    (hsucc : behav (workers.getD K 0) = WResp.status 200) :
    ∀ (d j : Nat), j + d = K → ∀ s : DState, s.workerIndex = j →
      (processTradeAd behav adId workers j ((workers.take j).toFinset) s).calls
          = s.calls ++ (workers.drop j).take (K + 1 - j) ∧
      (processTradeAd behav adId workers j ((workers.take j).toFinset) s).writes
          = s.writes ++ [adId] := by
  intro d
  induction d with
  | zero =>
    intro j hj s hsw
    obtain rfl : j = K := by omega
    have hmod : s.workerIndex % workers.length = j := by
      rw [hsw]; exact Nat.mod_eq_of_lt hK
    have hnt : workers.getD (s.workerIndex % workers.length) 0 ∉
        (workers.take j).toFinset := by
      rw [hmod]
      simpa [List.mem_toFinset] using getD_not_mem_take workers j hK hnd
    have hbv : behav (workers.getD (s.workerIndex % workers.length) 0) =
        WResp.status 200 := by rw [hmod]; exact hsucc
    rw [processTradeAd_success behav adId workers j _ s hK hnt hbv]
    refine ⟨?_, ?_⟩
    · rw [finallyStep_calls]
      rw [hmod]
      have h1 : j + 1 - j = 1 := by omega
      rw [h1, List.drop_eq_getElem_cons hK, List.getD_eq_getElem workers 0 hK]
      rfl
    · rw [finallyStep_writes]
  | succ d ih =>
    intro j hj s hsw
    have hjK : j < K := by omega
    have hjlt : j < workers.length := by omega
    have hmod : s.workerIndex % workers.length = j := by
      rw [hsw]; exact Nat.mod_eq_of_lt hjlt
    have hnt : workers.getD (s.workerIndex % workers.length) 0 ∉
        (workers.take j).toFinset := by
      rw [hmod]
      simpa [List.mem_toFinset] using getD_not_mem_take workers j hjlt hnd
    have hins : insert (workers.getD (s.workerIndex % workers.length) 0)
        ((workers.take j).toFinset) = (workers.take (j + 1)).toFinset := by
      rw [hmod, take_succ_toFinset workers j hjlt]
    have hb : behav (workers.getD (s.workerIndex % workers.length) 0) ≠
        WResp.status 200 := by rw [hmod]; exact hfail j hjK
    have hstep :
        processTradeAd behav adId workers j ((workers.take j).toFinset) s =
          finallyStep adId j workers.length
            (processTradeAd behav adId workers (j + 1)
              ((workers.take (j + 1)).toFinset)
              { s with workerIndex := s.workerIndex + 1,
                       calls := s.calls ++
                         [workers.getD (s.workerIndex % workers.length) 0] }) := by
      rcases hbv : behav (workers.getD (s.workerIndex % workers.length) 0)
        with _ | code
      · rw [processTradeAd_netError behav adId workers j _ s hjlt hnt hbv, hins]
      · have hc200 : code ≠ 200 := fun h200 => hb (by rw [hbv, h200])
        rw [processTradeAd_failStatus behav adId workers j _ s code hjlt hnt
          hbv hc200, hins]
    rw [hstep]
    obtain ⟨hc, hw⟩ := ih (j + 1) (by omega)
      { s with workerIndex := s.workerIndex + 1,
               calls := s.calls ++
                 [workers.getD (s.workerIndex % workers.length) 0] }
      (by simp [hsw])
    refine ⟨?_, ?_⟩
    · rw [finallyStep_calls, hc]
      show (s.calls ++ [workers.getD (s.workerIndex % workers.length) 0]) ++
          (workers.drop (j + 1)).take (K + 1 - (j + 1)) =
        s.calls ++ (workers.drop j).take (K + 1 - j)
      rw [List.append_assoc]
      congr 1
      rw [hmod, List.getD_eq_getElem workers 0 hjlt]
      have h2 : K + 1 - j = (K - j) + 1 := by omega
      have h3 : K + 1 - (j + 1) = K - j := by omega
      rw [h2, h3, List.drop_eq_getElem_cons hjlt, List.take_succ_cons]
      rfl
    · rw [finallyStep_writes, hw]

/-- Run lemma for C5: from attempt `j` with the cursor at position `j`
and the tried set holding the first `j` endpoints, a dispatch over
duplicate-free workers that all fail appends exactly the endpoints at
positions `j..N-1` to the call trace, writes nothing, logs the
exhaustion once, and leaves the listing id out of the in-flight set. -/
lemma processTradeAd_allfail_run (behav : Nat → WResp) (adId : Nat)
    (workers : List Nat) (hnd : workers.Nodup)
    (hns : ∀ w ∈ workers, behav w ≠ WResp.status 200) :
    ∀ (d j : Nat), j + d = workers.length → ∀ s : DState, s.workerIndex = j →
      (processTradeAd behav adId workers j ((workers.take j).toFinset) s).calls
          = s.calls ++ workers.drop j ∧
      (processTradeAd behav adId workers j ((workers.take j).toFinset) s).writes
          = s.writes ∧
      (processTradeAd behav adId workers j
          ((workers.take j).toFinset) s).exhaustedLog
          = s.exhaustedLog ++ [adId] ∧
      adId ∉ (processTradeAd behav adId workers j
          ((workers.take j).toFinset) s).processingQueue := by
  intro d
  induction d with
  | zero =>
    intro j hj s hsw
    have hjlen : j = workers.length := by omega
    rw [processTradeAd_exhaust behav adId workers _ _ s (by omega)]
    subst hjlen
    exact ⟨by simp [List.drop_length], rfl, rfl, by simp⟩
  | succ d ih =>
    intro j hj s hsw
    have hjlt : j < workers.length := by omega
    have hmod : s.workerIndex % workers.length = j := by
      rw [hsw]; exact Nat.mod_eq_of_lt hjlt
    have hnt : workers.getD (s.workerIndex % workers.length) 0 ∉
        (workers.take j).toFinset := by
      rw [hmod]
      simpa [List.mem_toFinset] using getD_not_mem_take workers j hjlt hnd
    have hins : insert (workers.getD (s.workerIndex % workers.length) 0)
        ((workers.take j).toFinset) = (workers.take (j + 1)).toFinset := by
      rw [hmod, take_succ_toFinset workers j hjlt]
    have hb : behav (workers.getD (s.workerIndex % workers.length) 0) ≠
        WResp.status 200 := by
      refine hns _ ?_
      rw [hmod, List.getD_eq_getElem workers 0 hjlt]
      exact List.getElem_mem hjlt
    have hstep :
        processTradeAd behav adId workers j ((workers.take j).toFinset) s =
          finallyStep adId j workers.length
            (processTradeAd behav adId workers (j + 1)
              ((workers.take (j + 1)).toFinset)
              { s with workerIndex := s.workerIndex + 1,
                       calls := s.calls ++
                         [workers.getD (s.workerIndex % workers.length) 0] }) := by
      rcases hbv : behav (workers.getD (s.workerIndex % workers.length) 0)
        with _ | code
      · rw [processTradeAd_netError behav adId workers j _ s hjlt hnt hbv, hins]
      · have hc200 : code ≠ 200 := fun h200 => hb (by rw [hbv, h200])
        rw [processTradeAd_failStatus behav adId workers j _ s code hjlt hnt
          hbv hc200, hins]
    rw [hstep]
    obtain ⟨hc, hw, hl, hq⟩ := ih (j + 1) (by omega)
      { s with workerIndex := s.workerIndex + 1,
               calls := s.calls ++
                 [workers.getD (s.workerIndex % workers.length) 0] }
      (by simp [hsw])
    refine ⟨?_, ?_, ?_, ?_⟩
    · rw [finallyStep_calls, hc]
      show (s.calls ++ [workers.getD (s.workerIndex % workers.length) 0]) ++
          workers.drop (j + 1) = s.calls ++ workers.drop j
      rw [List.append_assoc]
      congr 1
      rw [hmod, List.getD_eq_getElem workers 0 hjlt,
        List.drop_eq_getElem_cons hjlt]
      rfl
    · rw [finallyStep_writes, hw]
    · rw [finallyStep_exhaustedLog, hl]
    · exact finallyStep_not_mem_queue _ _ _ _ hq

/-- Membership in the directory left by a sweep: a file survives
`cleanupOldImages` iff it was there and its age is within the window. -/
lemma mem_cleanupOldImages (now : Int) (files : List FileEntry) (f : FileEntry) :
    f ∈ cleanupOldImages now files ↔
      f ∈ files ∧ now - f.mtime ≤ CACHE_DURATION := by
  induction files with
  | nil => simp [cleanupOldImages]
  | cons g rest ih =>
    rw [cleanupOldImages]
    by_cases hg : now - g.mtime > CACHE_DURATION
    · rw [if_pos hg, ih]
      constructor
      · rintro ⟨hmem, hle⟩
        exact ⟨List.mem_cons_of_mem _ hmem, hle⟩
      · rintro ⟨hmem, hle⟩
        rcases List.mem_cons.mp hmem with rfl | hmem
        · omega
        · exact ⟨hmem, hle⟩
    · rw [if_neg hg]
      simp only [List.mem_cons, ih]
      constructor
      · rintro (rfl | ⟨hmem, hle⟩)
        · exact ⟨Or.inl rfl, by omega⟩
        · exact ⟨Or.inr hmem, hle⟩
      · rintro ⟨rfl | hmem, hle⟩
        · exact Or.inl rfl
        · exact Or.inr ⟨hmem, hle⟩

/-- Membership in the fold underlying `jsSetList`. -/
lemma jsSetList_go_mem (l : List Nat) :
    ∀ (acc : List Nat) (x : Nat),
      x ∈ l.foldl (fun acc x => if x ∈ acc then acc else acc ++ [x]) acc ↔
        x ∈ acc ∨ x ∈ l := by
  induction l with
  | nil => simp
  | cons a l ih =>
    intro acc x
    rw [List.foldl_cons, ih]
    by_cases ha : a ∈ acc
    · rw [if_pos ha]
      simp only [List.mem_cons]
      constructor
      · rintro (h | h)
        · exact Or.inl h
        · exact Or.inr (Or.inr h)
      · rintro (h | rfl | h)
        · exact Or.inl h
        · exact Or.inl ha
        · exact Or.inr h
    · rw [if_neg ha]
      simp only [List.mem_append, List.mem_singleton, List.mem_cons]
      tauto

/-- `jsSetList` has the same members as the original list. -/
lemma jsSetList_mem (l : List Nat) (x : Nat) : x ∈ jsSetList l ↔ x ∈ l := by
  rw [jsSetList]
  simpa using jsSetList_go_mem l [] x

/-- The fold underlying `jsSetList` preserves freedom from duplicates. -/
lemma jsSetList_go_nodup (l : List Nat) :
    ∀ acc : List Nat, acc.Nodup →
      (l.foldl (fun acc x => if x ∈ acc then acc else acc ++ [x]) acc).Nodup := by
  induction l with
  | nil => intro acc h; simpa using h
  | cons a l ih =>
    intro acc h
    rw [List.foldl_cons]
    by_cases ha : a ∈ acc
    · rw [if_pos ha]; exact ih acc h
    · rw [if_neg ha]
      refine ih _ ?_
      rw [List.nodup_append]
      exact ⟨h, List.nodup_singleton a, by simpa using ha⟩

/-- `jsSetList` never contains duplicates (it models a JavaScript `Set`). -/
lemma jsSetList_nodup (l : List Nat) : (jsSetList l).Nodup := by
  rw [jsSetList]
  exact jsSetList_go_nodup l [] List.nodup_nil

/-- For a duplicate-free id list, the poll loop dispatches exactly the ids
not already in the in-flight set, in order. -/
lemma dispatchNew_fst (ids : List Nat) :
    ∀ q : Finset Nat, ids.Nodup →
      (dispatchNew ids q).1 = ids.filter (fun id => decide (id ∉ q)) := by
  induction ids with
  | nil => intro q _; simp [dispatchNew]
  | cons id rest ih =>
    intro q hnd
    rcases List.nodup_cons.mp hnd with ⟨hid, hrest⟩
    rw [dispatchNew]
    by_cases hq : id ∈ q
    · rw [if_pos hq, ih q hrest, List.filter_cons]
      simp [hq]
    · rw [if_neg hq]
      show id :: (dispatchNew rest (insert id q)).1 = List.filter _ (id :: rest)
      rw [List.filter_cons, ih (insert id q) hrest]
      have hpid : decide (id ∉ q) = true := by simpa using hq
      rw [hpid]
      simp only [if_true]
      congr 1
      refine List.filter_congr ?_
      intro x hx
      have hxid : x ≠ id := fun h => hid (h ▸ hx)
      simp [Finset.mem_insert, hxid]

/-- The ids a poll cycle hands to the dispatcher: members of the feed set,
not in the previous seen set, not already in-flight. -/
lemma pollOnce_dispatched (feedIds lastPolled : List Nat) (queue : Finset Nat) :
    (pollOnce feedIds lastPolled queue).dispatched =
      ((jsSetList feedIds).filter (fun id => decide (id ∉ lastPolled))).filter
        (fun id => decide (id ∉ queue)) := by
  rw [pollOnce]
  exact dispatchNew_fst _ _ ((jsSetList_nodup feedIds).filter _)

/-- Claim C10 (implicit): with an empty registered worker list,
`MAX_ATTEMPTS = 0`, so a dispatch on any listing id terminates at once on
the `attempts >= MAX_ATTEMPTS` guard: it makes zero worker calls, writes
no cache entry, never evaluates the modulo-by-zero endpoint selection
(the rotation cursor is untouched), logs the exhaustion, and removes the
id from the in-flight set. -/
theorem C10_empty_registry (behav : Nat → WResp) (adId : Nat) (s : DState) :
    processTradeAd behav adId [] 0 ∅ s =
      { s with exhaustedLog := s.exhaustedLog ++ [adId],
               processingQueue := s.processingQueue.erase adId } := by
  rw [processTradeAd]
  simp

/-- Claim C7: a single sweep (`cleanupOldImages`) deletes every cache
entry whose age (`now` minus modification time) exceeds the retention
window `CACHE_DURATION`, and never deletes an entry whose age is within
the window. -/
theorem C7_sweep (now : Int) (files : List FileEntry) (f : FileEntry)
    (hf : f ∈ files) :
    (now - f.mtime > CACHE_DURATION → f ∉ cleanupOldImages now files) ∧
    (now - f.mtime ≤ CACHE_DURATION → f ∈ cleanupOldImages now files) := by
  constructor
  · intro hage hmem
    have h := (mem_cleanupOldImages now files f).mp hmem
    omega
  · intro hage
    exact (mem_cleanupOldImages now files f).mpr ⟨hf, hage⟩

/-- Witness for C7 at a concrete input: at time `700000` the sweep deletes
the file written at time `0` (age above the 600000 ms window) and keeps
the file written at time `200000` (age within the window). -/
theorem C7_sweep_witness :
    ((⟨1, 0⟩ : FileEntry) ∈ [(⟨1, 0⟩ : FileEntry), ⟨2, 200000⟩] ∧
      ((700000 : Int) - (0 : Int) > CACHE_DURATION →
        (⟨1, 0⟩ : FileEntry) ∉
          cleanupOldImages 700000 [(⟨1, 0⟩ : FileEntry), ⟨2, 200000⟩]) ∧
      ((700000 : Int) - (0 : Int) ≤ CACHE_DURATION →
        (⟨1, 0⟩ : FileEntry) ∈
          cleanupOldImages 700000 [(⟨1, 0⟩ : FileEntry), ⟨2, 200000⟩])) ∧
    ((⟨2, 200000⟩ : FileEntry) ∈ [(⟨1, 0⟩ : FileEntry), ⟨2, 200000⟩] ∧
      ((700000 : Int) - (200000 : Int) > CACHE_DURATION →
        (⟨2, 200000⟩ : FileEntry) ∉
          cleanupOldImages 700000 [(⟨1, 0⟩ : FileEntry), ⟨2, 200000⟩]) ∧
      ((700000 : Int) - (200000 : Int) ≤ CACHE_DURATION →
        (⟨2, 200000⟩ : FileEntry) ∈
          cleanupOldImages 700000 [(⟨1, 0⟩ : FileEntry), ⟨2, 200000⟩])) :=
  ⟨⟨by decide,
    (C7_sweep 700000 [⟨1, 0⟩, ⟨2, 200000⟩] ⟨1, 0⟩ (by decide)).1,
    (C7_sweep 700000 [⟨1, 0⟩, ⟨2, 200000⟩] ⟨1, 0⟩ (by decide)).2⟩,
   ⟨by decide,
    (C7_sweep 700000 [⟨1, 0⟩, ⟨2, 200000⟩] ⟨2, 200000⟩ (by decide)).1,
    (C7_sweep 700000 [⟨1, 0⟩, ⟨2, 200000⟩] ⟨2, 200000⟩ (by decide)).2⟩⟩

/-- A concrete health oracle for the C8 example: 3 registered workers, of
which worker `2` times out; the others answer with 100 MB reported RAM. -/
def healthEx : Nat → Option Nat :=
  fun w => if w = 2 then none else some 100

/-- Claim C8: health aggregation counts an endpoint whose health query
fails or times out (`none`) as unhealthy and contributes zero to the
aggregate reported memory — the healthy count is the number of answering
endpoints and the aggregate is the sum of reported figures with `0` for
failures; the aggregation itself is a total function (it never fails).
With 3 registered workers of which 1 times out, it reports
`healthyWorkers = 2` while the reported total is the registry size 3. -/
theorem C8_health_aggregation :
    (∀ (ws : List Nat) (health : Nat → Option Nat),
        (checkAll ws health).1 = (ws.filter (fun w => (health w).isSome)).length ∧
        (checkAll ws health).2 = (ws.map (fun w => (health w).getD 0)).sum) ∧
    checkAll [1, 2, 3] healthEx = (2, 200) ∧ ([1, 2, 3] : List Nat).length = 3 := by
  refine ⟨fun ws health => ?_, by decide, rfl⟩
  induction ws with
  | nil => simp [checkAll]
  | cons w rest ih =>
    cases hw : health w with
    | none => simp [checkAll, hw, ih]
    | some ram =>
        rw [checkAll, hw]
        simp only [List.filter_cons, List.map_cons, List.sum_cons, hw,
          Option.isSome_some, if_true, List.length_cons, Option.getD_some]
        exact ⟨by rw [ih.1], by rw [ih.2]; omega⟩

/-- Claim C9: registry selection returns the endpoint at the cursor
position modulo the current list length and advances the cursor by one
per selection — so `n` successive selections from cursor `i` are the
endpoints at positions `i % len, (i+1) % len, …` — and over workers
`[A, B, C]` (as `[10, 20, 30]`) four sequential selections from a fresh
cursor yield `A, B, C, A`. -/
theorem C9_round_robin :
    (∀ (workers : List Nat) (s : DState) (n : Nat),
        selections workers s n =
          (List.range n).map
            (fun i => workers.getD ((s.workerIndex + i) % workers.length) 0)) ∧
    selections [10, 20, 30] ⟨0, ∅, ∅, [], [], []⟩ 4 = [10, 20, 30, 10] := by
  refine ⟨fun workers s n => ?_, by decide⟩
  induction n generalizing s with
  | zero => simp [selections]
  | succ n ih =>
    rw [selections, ih]
    rw [List.range_succ_eq_map, List.map_cons, List.map_map]
    simp only [getNextWorker, Nat.add_zero]
    congr 1
    refine List.map_congr_left ?_
    intro i _
    simp only [Function.comp_apply]
    have h2 : s.workerIndex + 1 + i = s.workerIndex + Nat.succ i := by omega
    rw [h2]

/-- Claim C6: a poll cycle dispatches exactly the ids of the current feed
that are neither in the previous seen set nor already in-flight, then
replaces the seen set wholesale with the current ids; with previous seen
`{1,2,3}` and feed `{2,3,4}` only id `4` is dispatched, and a second
consecutive cycle with the identical feed dispatches nothing. -/
theorem C6_poll_cycle :
    (∀ (feedIds lastPolled : List Nat) (queue : Finset Nat),
        (pollOnce feedIds lastPolled queue).lastPolledTradeAds = jsSetList feedIds ∧
        ∀ id : Nat,
          id ∈ (pollOnce feedIds lastPolled queue).dispatched ↔
            id ∈ feedIds ∧ id ∉ lastPolled ∧ id ∉ queue) ∧
    (pollOnce [2, 3, 4] [1, 2, 3] ∅).dispatched = [4] ∧
    (pollOnce [2, 3, 4] (pollOnce [2, 3, 4] [1, 2, 3] ∅).lastPolledTradeAds
        (pollOnce [2, 3, 4] [1, 2, 3] ∅).processingQueue).dispatched = [] := by
  refine ⟨fun feedIds lastPolled queue => ⟨rfl, fun id => ?_⟩, by decide, by decide⟩
  rw [pollOnce_dispatched]
  simp [List.mem_filter, jsSetList_mem]
  tauto

/-- Claim C3 counterexample: `processTradeAd` performs no in-flight
check.  With id `5` already in the in-flight set, a renewed dispatch is
not a no-op: on registry `[10]` with a succeeding worker it changes the
state and makes a worker render call. -/
theorem C3_counterexample :
    processTradeAd (fun _ => WResp.status 200) 5 [10] 0 ∅
        ⟨0, {5}, ∅, [], [], []⟩ ≠ ⟨0, {5}, ∅, [], [], []⟩ ∧
    (processTradeAd (fun _ => WResp.status 200) 5 [10] 0 ∅
        ⟨0, {5}, ∅, [], [], []⟩).calls = [10] := by
  have h : processTradeAd (fun _ => WResp.status 200) 5 [10] 0 ∅
      ⟨0, {5}, ∅, [], [], []⟩ = ⟨1, ∅, {5}, [5], [10], []⟩ := by
    rw [processTradeAd]
    simp [getNextWorker, finallyStep]
  rw [h]
  exact ⟨by decide, rfl⟩

/-- Claim C3 amended: the redundancy guard lives in the poller, not the
dispatcher — `pollTradeAds` skips any id already in the in-flight set, so
the poll path never dispatches an in-flight id; `processTradeAd` itself
checks nothing (see `C3_counterexample`). -/
theorem C3_poller_guard (feedIds lastPolled : List Nat) (queue : Finset Nat)
    (id : Nat) (hid : id ∈ queue) :
    id ∉ (pollOnce feedIds lastPolled queue).dispatched := by
  rw [pollOnce_dispatched]
  intro hmem
  have h := List.of_mem_filter hmem
  simp at h
  exact h hid

/-- Witness for the amended C3 at a concrete input: id `4` is in-flight,
appears as new in the feed, and is not dispatched. -/
theorem C3_poller_guard_witness :
    4 ∈ ({4} : Finset Nat) ∧ 4 ∉ (pollOnce [4] [] {4}).dispatched :=
  ⟨by decide, C3_poller_guard [4] [] {4} 4 (by decide)⟩

/-- Claim C1 (code bug): the `finally` of `processTradeAd` deletes the id
from the in-flight set only when `attempts + 1 >= MAX_ATTEMPTS`, so a
dispatch that succeeds before the final attempt never removes the id.
Concretely: registry `[10, 20]`, worker `10` succeeds on the first
attempt — the cache entry for id `5` is written, yet `5` is still in the
in-flight set when the dispatch terminates. -/
theorem C1_success_leaves_id_inflight :
    (processTradeAd (fun _ => WResp.status 200) 5 [10, 20] 0 ∅
        ⟨0, {5}, ∅, [], [], []⟩).writes = [5] ∧
    5 ∈ (processTradeAd (fun _ => WResp.status 200) 5 [10, 20] 0 ∅
        ⟨0, {5}, ∅, [], [], []⟩).processingQueue := by
  rw [processTradeAd]
  simp [getNextWorker, finallyStep]

/-- Claim C2 counterexample: the duplicate-endpoint path (line 123)
recurses with `attempts + 1`, i.e. it *does* consume an attempt.  At the
dup-branch input below (registry `[10, 20]`, attempt 1 of 2, endpoint
`10` already tried, cursor at position 0, endpoint `20` untried and
succeeding), the code exhausts without a single render call, whereas
retrying the selection with the same attempt count (right-hand side:
cursor advanced, attempts unchanged) would reach `20` and succeed — the
two disagree, refuting "immediately retries selection without consuming
an attempt". -/
theorem C2_counterexample :
    10 ∈ ({10} : Finset Nat) ∧
    processTradeAd (fun w => if w = 20 then WResp.status 200 else WResp.netError)
        5 [10, 20] 1 {10} ⟨0, {5}, ∅, [], [], []⟩ ≠
      processTradeAd (fun w => if w = 20 then WResp.status 200 else WResp.netError)
        5 [10, 20] 1 {10} ⟨1, {5}, ∅, [], [], []⟩ := by
  have hL : processTradeAd
      (fun w => if w = 20 then WResp.status 200 else WResp.netError)
      5 [10, 20] 1 {10} ⟨0, {5}, ∅, [], [], []⟩ = ⟨1, ∅, ∅, [], [], [5]⟩ := by
    simp [processTradeAd, getNextWorker]
  have hR : processTradeAd
      (fun w => if w = 20 then WResp.status 200 else WResp.netError)
      5 [10, 20] 1 {10} ⟨1, {5}, ∅, [], [], []⟩ = ⟨2, ∅, {5}, [5], [20], []⟩ := by
    rw [processTradeAd]
    simp [getNextWorker, finallyStep]
  rw [hL, hR]
  exact ⟨by decide, by decide⟩

/-- Claim C2 amended: the duplicate-endpoint path *does* consume an
attempt (line 123 recurses with `attempts + 1`, see `C2_counterexample`),
but from a fresh dispatch no premature exhaustion is possible anyway:
each of the `N = WORKER_URLS.length` attempts consumes one rotation
position, the `N` consecutive positions cover the whole registry, and an
endpoint is render-called the first time its value comes up — so when a
never-succeeding dispatch terminates by exhaustion, every registered
endpoint (aliased/duplicate entries included) has been tried. -/
theorem C2_exhaustion_tries_every_endpoint (behav : Nat → WResp)
    (adId : Nat) (workers : List Nat) (s : DState)
    (hns : ∀ w, behav w ≠ WResp.status 200) :
    ∀ w ∈ workers, w ∈ (processTradeAd behav adId workers 0 ∅ s).calls := by
  intro w hw
  obtain ⟨m, hm, rfl⟩ := List.mem_iff_getElem.mp hw
  have hlen : 0 < workers.length := by omega
  obtain ⟨k, hk, hmod⟩ := mod_shift_surj s.workerIndex m workers.length hlen hm
  have h := (processTradeAd_covers behav adId workers hns workers.length 0 ∅ s
      (by omega) (by simp)).2.2 k (by omega)
  rw [hmod] at h
  rwa [List.getD_eq_getElem workers 0 hm] at h

/-- Witness for the amended C2 at a concrete input: registry
`[7, 7, 9]` with an aliased entry and an always-failing oracle — the
distinct endpoint `9` after the duplicates is still called before
exhaustion. -/
theorem C2_exhaustion_tries_every_endpoint_witness :
    9 ∈ (processTradeAd (fun _ => WResp.netError) 5 [7, 7, 9] 0 ∅
        ⟨0, {5}, ∅, [], [], []⟩).calls :=
  C2_exhaustion_tries_every_endpoint (fun _ => WResp.netError) 5 [7, 7, 9]
    ⟨0, {5}, ∅, [], [], []⟩ (fun w h => WResp.noConfusion h) 9 (by decide)

/-- Claim C4: with `N` registered distinct workers, if the first `K`
workers tried (in rotation order from a fresh cursor) each return
failure or overload and worker `K + 1` returns success, a single
dispatch makes exactly `K + 1` worker render calls (the first `K + 1`
registry entries, in order) and writes exactly one cache entry for the
listing id. -/
theorem C4_first_success (behav : Nat → WResp) (adId K : Nat)
    (workers : List Nat) (s : DState) (hnd : workers.Nodup)
    (hK : K < workers.length)
    (hfail : ∀ i, i < K → behav (workers.getD i 0) ≠ WResp.status 200)
    (hsucc : behav (workers.getD K 0) = WResp.status 200)
    (hidx : s.workerIndex = 0) :
    (processTradeAd behav adId workers 0 ∅ s).calls
        = s.calls ++ workers.take (K + 1) ∧
    (processTradeAd behav adId workers 0 ∅ s).writes = s.writes ++ [adId] ∧
    (workers.take (K + 1)).length = K + 1 := by
  have h := processTradeAd_prefix_run behav adId K workers hnd hK hfail hsucc
    K 0 (by omega) s hidx
  simp only [List.take_zero, List.toFinset_nil, List.drop_zero,
    Nat.sub_zero] at h
  refine ⟨h.1, h.2, ?_⟩
  rw [List.length_take]
  omega

/-- Witness for C4 at a concrete input: registry `[10, 20, 30]`, worker
`10` fails with status 500, worker `20` succeeds — the dispatch calls
`[10, 20]` and writes one cache entry for listing 5. -/
theorem C4_first_success_witness :
    ([10, 20, 30] : List Nat).Nodup ∧ 1 < ([10, 20, 30] : List Nat).length ∧
    ((processTradeAd
        (fun w => if w = 20 then WResp.status 200 else WResp.status 500)
        5 [10, 20, 30] 0 ∅ ⟨0, {5}, ∅, [], [], []⟩).calls
          = [] ++ ([10, 20, 30] : List Nat).take (1 + 1) ∧
      (processTradeAd
        (fun w => if w = 20 then WResp.status 200 else WResp.status 500)
        5 [10, 20, 30] 0 ∅ ⟨0, {5}, ∅, [], [], []⟩).writes = [] ++ [5] ∧
      (([10, 20, 30] : List Nat).take (1 + 1)).length = 1 + 1) :=
  ⟨by decide, by decide,
    C4_first_success
      (fun w => if w = 20 then WResp.status 200 else WResp.status 500)
      5 1 [10, 20, 30] ⟨0, {5}, ∅, [], [], []⟩ (by decide) (by decide)
      (by decide) (by decide) rfl⟩

/-- Claim C5: with `N` registered distinct workers that all fail, a
single dispatch makes exactly `N` worker render calls (every registry
entry, in rotation order), writes no cache entry, logs the exhaustion,
and the in-flight set no longer contains the listing id afterwards. -/
theorem C5_all_fail (behav : Nat → WResp) (adId : Nat)
    (workers : List Nat) (s : DState) (hnd : workers.Nodup)
    (hns : ∀ w ∈ workers, behav w ≠ WResp.status 200)
    (hidx : s.workerIndex = 0) :
    (processTradeAd behav adId workers 0 ∅ s).calls = s.calls ++ workers ∧
    (processTradeAd behav adId workers 0 ∅ s).writes = s.writes ∧
    (processTradeAd behav adId workers 0 ∅ s).exhaustedLog
        = s.exhaustedLog ++ [adId] ∧
    adId ∉ (processTradeAd behav adId workers 0 ∅ s).processingQueue := by
  have h := processTradeAd_allfail_run behav adId workers hnd hns
    workers.length 0 (by omega) s hidx
  simpa using h

/-- Witness for C5 at a concrete input: registry `[10, 20]`, both
workers fail with status 500 — the dispatch calls `[10, 20]`, writes
nothing, logs exhaustion for listing 5, and `5` is no longer
in-flight. -/
theorem C5_all_fail_witness :
    ([10, 20] : List Nat).Nodup ∧
    ((processTradeAd (fun _ => WResp.status 500) 5 [10, 20] 0 ∅
        ⟨0, {5}, ∅, [], [], []⟩).calls = [] ++ [10, 20] ∧
      (processTradeAd (fun _ => WResp.status 500) 5 [10, 20] 0 ∅
        ⟨0, {5}, ∅, [], [], []⟩).writes = [] ∧
      (processTradeAd (fun _ => WResp.status 500) 5 [10, 20] 0 ∅
        ⟨0, {5}, ∅, [], [], []⟩).exhaustedLog = [] ++ [5] ∧
      5 ∉ (processTradeAd (fun _ => WResp.status 500) 5 [10, 20] 0 ∅
        ⟨0, {5}, ∅, [], [], []⟩).processingQueue) :=
  ⟨by decide,
    C5_all_fail (fun _ => WResp.status 500) 5 [10, 20]
      ⟨0, {5}, ∅, [], [], []⟩ (by decide) (by decide) rfl⟩

end ImageManager
